import Mathlib

/-!
Verification of the `UndirectedGraph` adjacency structure from
`src/core/src/idx/trees/graph.rs` (the HNSW adjacency map of the vector index).

The Rust structure is
`struct UndirectedGraph { m_max: usize, nodes: HashMap<ElementId, HashSet<ElementId>> }`.
`ElementId` is an opaque, externally issued, copyable identifier with value
equality and hashing; we model it as `ℕ`.  The `HashMap` is modelled
extensionally as a function `ElementId → Option (Finset ElementId)`
(`none` = key absent), and each `HashSet` as a `Finset`.  Rust's sequential
in-place mutations become sequenced functional updates; a `for` loop over a
`HashSet` becomes a fold over `Finset.sort (· ≤ ·)` (a computable,
duplicate-free enumeration; `HashSet` iteration order is unspecified, and all
results proved below are independent of the enumeration order).
-/

namespace HnswGraph

/-- Identifier of a node (vector) in the index, issued by the index layer. -/
abbrev ElementId := ℕ

/-- Extensional model of `HashMap<ElementId, HashSet<ElementId>>`. -/
abbrev NodeMap := ElementId → Option (Finset ElementId)

/-- Model of `map.insert(k, v)` / `entry(k)` followed by storing value `v`. -/
def mapInsert (m : NodeMap) (k : ElementId) (v : Finset ElementId) : NodeMap :=
  fun k' => if k' = k then some v else m k'

/-- Model of `map.remove(k)` (dropping the key). -/
def mapRemove (m : NodeMap) (k : ElementId) : NodeMap :=
  fun k' => if k' = k then none else m k'

/-- Model of `map.entry(k).or_default()`: the stored set, or `∅` when vacant. -/
def entryOrDefault (m : NodeMap) (k : ElementId) : Finset ElementId :=
  (m k).getD ∅

@[simp]
lemma mapInsert_self (m : NodeMap) (k : ElementId) (v : Finset ElementId) :
    mapInsert m k v k = some v := by
  simp [mapInsert]

@[simp]
lemma mapInsert_ne (m : NodeMap) (k k' : ElementId) (v : Finset ElementId) (h : k' ≠ k) :
    mapInsert m k v k' = m k' := by
  simp [mapInsert, h]

@[simp]
lemma mapRemove_self (m : NodeMap) (k : ElementId) : mapRemove m k k = none := by
  simp [mapRemove]

@[simp]
lemma mapRemove_ne (m : NodeMap) (k k' : ElementId) (h : k' ≠ k) :
    mapRemove m k k' = m k' := by
  simp [mapRemove, h]

lemma entryOrDefault_of_some {m : NodeMap} {k : ElementId} {s : Finset ElementId}
    (h : m k = some s) : entryOrDefault m k = s := by
  simp [entryOrDefault, h]

/-- Loop `for &e in &l { map.entry(e).or_default().insert(node) }`
(the reverse-edge insertion loop of `add_node` and `set_node`). -/
def addBack (node : ElementId) (m : NodeMap) (l : List ElementId) : NodeMap :=
  l.foldl (fun m e => mapInsert m e (insert node (entryOrDefault m e))) m

/-- Loop `for n in to_remove { map.entry(n).or_default().remove(&node) }`
(the reverse-edge removal loop of `set_node`; note the `or_default`). -/
def removeBack (node : ElementId) (m : NodeMap) (l : List ElementId) : NodeMap :=
  l.foldl (fun m e => mapInsert m e ((entryOrDefault m e).erase node)) m

/-- Step of the `remove_node` reverse-edge loop:
`if let Some(s) = map.get_mut(e) { s.remove(node) }` (skips absent keys). -/
def removeStep (node : ElementId) (m : NodeMap) (e : ElementId) : NodeMap :=
  match m e with
  | some s => mapInsert m e (s.erase node)
  | none => m

/-- Loop `for edge in &l { if let Some(s) = map.get_mut(edge) { s.remove(node) } }`
(the reverse-edge removal loop of `remove_node`). -/
def removeExisting (node : ElementId) (m : NodeMap) (l : List ElementId) : NodeMap :=
  l.foldl (removeStep node) m

lemma removeStep_apply (node : ElementId) (m : NodeMap) (e k : ElementId) :
    removeStep node m e k =
      if k = e then (m e).map (fun s => s.erase node) else m k := by
  cases hme : m e with
  | none =>
    by_cases hke : k = e
    · subst hke; simp [removeStep, hme]
    · simp [removeStep, hme, hke]
  | some s =>
    by_cases hke : k = e
    · subst hke; simp [removeStep, hme]
    · simp [removeStep, hme, mapInsert, hke]

lemma addBack_apply (node : ElementId) (l : List ElementId) (hl : l.Nodup)
    (m : NodeMap) (k : ElementId) :
    addBack node m l k =
      if k ∈ l then some (insert node (entryOrDefault m k)) else m k := by
  induction l generalizing m with
  | nil => simp [addBack]
  | cons e rest ih =>
    have hrest : rest.Nodup := hl.of_cons
    have he : e ∉ rest := (List.nodup_cons.mp hl).1
    show addBack node (mapInsert m e (insert node (entryOrDefault m e))) rest k = _
    rw [ih hrest]
    by_cases hke : k = e
    · subst hke
      simp [he, entryOrDefault]
    · simp [entryOrDefault, mapInsert, hke, List.mem_cons]

lemma removeBack_apply (node : ElementId) (l : List ElementId) (hl : l.Nodup)
    (m : NodeMap) (k : ElementId) :
    removeBack node m l k =
      if k ∈ l then some ((entryOrDefault m k).erase node) else m k := by
  induction l generalizing m with
  | nil => simp [removeBack]
  | cons e rest ih =>
    have hrest : rest.Nodup := hl.of_cons
    have he : e ∉ rest := (List.nodup_cons.mp hl).1
    show removeBack node (mapInsert m e ((entryOrDefault m e).erase node)) rest k = _
    rw [ih hrest]
    by_cases hke : k = e
    · subst hke
      simp [he, entryOrDefault]
    · simp [entryOrDefault, mapInsert, hke, List.mem_cons]

lemma removeExisting_apply (node : ElementId) (l : List ElementId) (hl : l.Nodup)
    (m : NodeMap) (k : ElementId) :
    removeExisting node m l k =
      if k ∈ l then (m k).map (fun s => s.erase node) else m k := by
  induction l generalizing m with
  | nil => simp [removeExisting]
  | cons e rest ih =>
    have hrest : rest.Nodup := hl.of_cons
    have he : e ∉ rest := (List.nodup_cons.mp hl).1
    show removeExisting node (removeStep node m e) rest k = _
    rw [ih hrest]
    by_cases hke : k = e
    · subst hke
      simp [he, removeStep_apply]
    · simp [removeStep_apply, hke, List.mem_cons]

lemma addBack_sort_apply (node : ElementId) (m : NodeMap) (s : Finset ElementId)
    (k : ElementId) :
    addBack node m (s.sort (· ≤ ·)) k =
      if k ∈ s then some (insert node (entryOrDefault m k)) else m k := by
  rw [addBack_apply _ _ (Finset.sort_nodup _ _)]
  simp [Finset.mem_sort]

lemma removeBack_sort_apply (node : ElementId) (m : NodeMap) (s : Finset ElementId)
    (k : ElementId) :
    removeBack node m (s.sort (· ≤ ·)) k =
      if k ∈ s then some ((entryOrDefault m k).erase node) else m k := by
  rw [removeBack_apply _ _ (Finset.sort_nodup _ _)]
  simp [Finset.mem_sort]

lemma removeExisting_sort_apply (node : ElementId) (m : NodeMap) (s : Finset ElementId)
    (k : ElementId) :
    removeExisting node m (s.sort (· ≤ ·)) k =
      if k ∈ s then (m k).map (fun t => t.erase node) else m k := by
  rw [removeExisting_apply _ _ (Finset.sort_nodup _ _)]
  simp [Finset.mem_sort]

/-- Model of `UndirectedGraph { m_max, nodes }`. -/
@[ext]
structure UndirectedGraph where
  m_max : ℕ
  nodes : NodeMap

namespace UndirectedGraph

/-- Model of `impl From<usize> for UndirectedGraph`: the empty graph with a
capacity hint. -/
def from_m (m : ℕ) : UndirectedGraph :=
  { m_max := m, nodes := fun _ => none }

/-- Model of `get_edges`. -/
def get_edges (g : UndirectedGraph) (node : ElementId) : Option (Finset ElementId) :=
  g.nodes node

/-- Model of `add_edge` (test-support primitive): symmetric single-edge insert,
ignoring self-references. -/
def add_edge (g : UndirectedGraph) (node1 node2 : ElementId) : UndirectedGraph :=
  if node1 ≠ node2 then
    let m1 := mapInsert g.nodes node1 (insert node2 (entryOrDefault g.nodes node1))
    { g with nodes := mapInsert m1 node2 (insert node1 (entryOrDefault m1 node2)) }
  else g

/-- Model of `add_empty_node`: register `node` with an empty set iff vacant;
the `Bool` is the Rust return value. -/
def add_empty_node (g : UndirectedGraph) (node : ElementId) : UndirectedGraph × Bool :=
  match g.nodes node with
  | none => ({ g with nodes := mapInsert g.nodes node ∅ }, true)
  | some _ => (g, false)

/-- Model of `add_node`: rejected (`none`) when `node` already exists; otherwise
install `edges`, add the reverse edges, and return the collected edge list. -/
def add_node (g : UndirectedGraph) (node : ElementId) (edges : Finset ElementId) :
    UndirectedGraph × Option (List ElementId) :=
  match g.nodes node with
  | some _ => (g, none)
  | none =>
    ({ g with nodes := addBack node (mapInsert g.nodes node edges) (edges.sort (· ≤ ·)) },
      some (edges.sort (· ≤ ·)))

/-- Model of `set_node`: insert-or-replace the stored set, then reconcile
reverse edges on the delta (`to_add` first, then `to_remove`, as in the
source). -/
def set_node (g : UndirectedGraph) (node : ElementId) (edges : Finset ElementId) :
    UndirectedGraph :=
  match g.nodes node with
  | some old_edges =>
    let to_remove := (old_edges.filter (fun e => e ∉ edges)).sort (· ≤ ·)
    let to_add := (edges.filter (fun e => e ∉ old_edges)).sort (· ≤ ·)
    let m1 := mapInsert g.nodes node edges
    { g with nodes := removeBack node (addBack node m1 to_add) to_remove }
  | none =>
    { g with nodes := addBack node (mapInsert g.nodes node edges) (edges.sort (· ≤ ·)) }

/-- Model of `remove_node`: delete the entry when present, erase `node` from
each still-present former neighbor's set, and return the former set. -/
def remove_node (g : UndirectedGraph) (node : ElementId) :
    UndirectedGraph × Option (Finset ElementId) :=
  match g.nodes node with
  | some edges =>
    ({ g with nodes := removeExisting node (mapRemove g.nodes node) (edges.sort (· ≤ ·)) },
      some edges)
  | none => (g, none)

lemma add_edge_self (g : UndirectedGraph) (a : ElementId) : g.add_edge a a = g := by
  simp [add_edge]

lemma add_edge_nodes_eq (g : UndirectedGraph) {a b : ElementId} (h : a ≠ b) (k : ElementId) :
    (g.add_edge a b).nodes k =
      if k = b then some (insert a (entryOrDefault g.nodes b))
      else if k = a then some (insert b (entryOrDefault g.nodes a))
      else g.nodes k := by
  have hba : b ≠ a := h.symm
  by_cases hkb : k = b
  · subst hkb
    simp [add_edge, h, mapInsert, entryOrDefault, hba]
  · by_cases hka : k = a
    · subst hka
      simp [add_edge, h, mapInsert, entryOrDefault, hkb]
    · simp [add_edge, h, mapInsert, entryOrDefault, hkb, hka]

lemma add_empty_node_of_absent {g : UndirectedGraph} {n : ElementId}
    (h : g.nodes n = none) :
    g.add_empty_node n = ({ g with nodes := mapInsert g.nodes n ∅ }, true) := by
  simp [add_empty_node, h]

lemma add_empty_node_of_present {g : UndirectedGraph} {n : ElementId}
    {s : Finset ElementId} (h : g.nodes n = some s) :
    g.add_empty_node n = (g, false) := by
  simp [add_empty_node, h]

lemma add_empty_node_nodes_eq {g : UndirectedGraph} {n : ElementId}
    (h : g.nodes n = none) (k : ElementId) :
    (g.add_empty_node n).1.nodes k = if k = n then some ∅ else g.nodes k := by
  by_cases hkn : k = n <;> simp [add_empty_node, h, mapInsert, hkn]

lemma add_node_of_present {g : UndirectedGraph} {n : ElementId} {s : Finset ElementId}
    (E : Finset ElementId) (h : g.nodes n = some s) :
    g.add_node n E = (g, none) := by
  simp [add_node, h]

lemma add_node_ret_of_absent {g : UndirectedGraph} {n : ElementId}
    (E : Finset ElementId) (h : g.nodes n = none) :
    (g.add_node n E).2 = some (E.sort (· ≤ ·)) := by
  simp [add_node, h]

lemma add_node_nodes_eq {g : UndirectedGraph} {n : ElementId} {E : Finset ElementId}
    (h : g.nodes n = none) (k : ElementId) :
    (g.add_node n E).1.nodes k =
      if k = n then some E
      else if k ∈ E then some (insert n (entryOrDefault g.nodes k))
      else g.nodes k := by
  simp only [add_node, h]
  rw [addBack_apply _ _ (Finset.sort_nodup _ _)]
  by_cases hkn : k = n
  · subst hkn
    by_cases hkE : k ∈ E
    · simp [Finset.mem_sort, hkE, entryOrDefault, mapInsert, Finset.insert_eq_self.mpr hkE]
    · simp [Finset.mem_sort, hkE, mapInsert]
  · by_cases hkE : k ∈ E
    · simp [Finset.mem_sort, hkE, entryOrDefault, mapInsert, hkn]
    · simp [Finset.mem_sort, hkE, mapInsert, hkn]

lemma set_node_eq_add_node_of_absent {g : UndirectedGraph} {n : ElementId}
    (E : Finset ElementId) (h : g.nodes n = none) :
    g.set_node n E = (g.add_node n E).1 := by
  simp [set_node, add_node, h]

lemma set_node_nodes_eq_of_absent {g : UndirectedGraph} {n : ElementId}
    {E : Finset ElementId} (h : g.nodes n = none) (k : ElementId) :
    (g.set_node n E).nodes k =
      if k = n then some E
      else if k ∈ E then some (insert n (entryOrDefault g.nodes k))
      else g.nodes k := by
  rw [set_node_eq_add_node_of_absent E h]
  exact add_node_nodes_eq h k

lemma set_node_nodes_eq_of_present {g : UndirectedGraph} {n : ElementId}
    {E O : Finset ElementId} (h : g.nodes n = some O) (k : ElementId) :
    (g.set_node n E).nodes k =
      if k = n then some E
      else if k ∈ E ∧ k ∉ O then some (insert n (entryOrDefault g.nodes k))
      else if k ∈ O ∧ k ∉ E then some ((entryOrDefault g.nodes k).erase n)
      else g.nodes k := by
  simp only [set_node, h]
  by_cases hkn : k = n
  · subst hkn
    by_cases hkE : k ∈ E <;> by_cases hkO : k ∈ O <;>
      simp [removeBack_sort_apply, addBack_sort_apply, Finset.mem_filter, hkE, hkO,
        entryOrDefault, mapInsert, Finset.insert_eq_self, Finset.erase_eq_of_not_mem]
  · by_cases hkE : k ∈ E <;> by_cases hkO : k ∈ O <;>
      simp [removeBack_sort_apply, addBack_sort_apply, Finset.mem_filter, hkE, hkO, hkn,
        entryOrDefault, mapInsert]

lemma set_node_nodes_self (g : UndirectedGraph) (n : ElementId) (E : Finset ElementId) :
    (g.set_node n E).nodes n = some E := by
  cases hgn : g.nodes n with
  | none => simp [set_node_nodes_eq_of_absent hgn]
  | some O => simp [set_node_nodes_eq_of_present hgn]

lemma set_node_m_max (g : UndirectedGraph) (n : ElementId) (E : Finset ElementId) :
    (g.set_node n E).m_max = g.m_max := by
  cases hgn : g.nodes n <;> simp [set_node, hgn]

lemma remove_node_of_absent {g : UndirectedGraph} {n : ElementId}
    (h : g.nodes n = none) : g.remove_node n = (g, none) := by
  simp [remove_node, h]

lemma remove_node_ret_of_present {g : UndirectedGraph} {n : ElementId}
    {S : Finset ElementId} (h : g.nodes n = some S) :
    (g.remove_node n).2 = some S := by
  simp [remove_node, h]

lemma remove_node_nodes_eq {g : UndirectedGraph} {n : ElementId} {S : Finset ElementId}
    (h : g.nodes n = some S) (k : ElementId) :
    (g.remove_node n).1.nodes k =
      if k = n then none
      else if k ∈ S then (g.nodes k).map (fun s => s.erase n)
      else g.nodes k := by
  simp only [remove_node, h]
  rw [removeExisting_apply _ _ (Finset.sort_nodup _ _)]
  by_cases hkn : k = n
  · subst hkn
    by_cases hkS : k ∈ S <;> simp [Finset.mem_sort, hkS, mapRemove]
  · by_cases hkS : k ∈ S <;> simp [Finset.mem_sort, hkS, mapRemove, hkn]

end UndirectedGraph

/-- Symmetry of the adjacency map: every recorded edge is recorded at both
endpoints, and both endpoints are present as keys. -/
def Symm (g : UndirectedGraph) : Prop :=
  ∀ a b s, g.nodes a = some s → b ∈ s → ∃ t, g.nodes b = some t ∧ a ∈ t

lemma mem_entryOrDefault {m : NodeMap} {a b : ElementId}
    (h : b ∈ entryOrDefault m a) : ∃ s, m a = some s ∧ b ∈ s := by
  cases hma : m a with
  | none => simp [entryOrDefault, hma] at h
  | some s => exact ⟨s, rfl, by simpa [entryOrDefault, hma] using h⟩

lemma symm_from_m (m : ℕ) : Symm (UndirectedGraph.from_m m) := by
  intro a b s hs hb
  simp [UndirectedGraph.from_m] at hs

lemma symm_add_empty_node (g : UndirectedGraph) (n : ElementId) (hg : Symm g) :
    Symm (g.add_empty_node n).1 := by
  cases hgn : g.nodes n with
  | some s => rw [UndirectedGraph.add_empty_node_of_present hgn]; exact hg
  | none =>
    intro a b s hs hb
    rw [UndirectedGraph.add_empty_node_nodes_eq hgn] at hs
    by_cases han : a = n
    · subst han
      rw [if_pos rfl] at hs
      injection hs with hs
      subst hs
      simp at hb
    · rw [if_neg han] at hs
      obtain ⟨t, hbt, hat⟩ := hg a b s hs hb
      have hbn : b ≠ n := by
        rintro rfl
        rw [hgn] at hbt
        exact Option.noConfusion hbt
      refine ⟨t, ?_, hat⟩
      rw [UndirectedGraph.add_empty_node_nodes_eq hgn, if_neg hbn]
      exact hbt

lemma symm_add_edge (g : UndirectedGraph) (n1 n2 : ElementId) (hg : Symm g) :
    Symm (g.add_edge n1 n2) := by
  by_cases h12 : n1 = n2
  · subst h12
    rw [UndirectedGraph.add_edge_self]
    exact hg
  · intro a b s hs hb
    have hnb := fun k => UndirectedGraph.add_edge_nodes_eq g h12 k
    rw [hnb a] at hs
    by_cases han2 : a = n2
    · subst a
      rw [if_pos rfl] at hs
      injection hs with hs
      subst hs
      by_cases hbn2 : b = n2
      · subst b
        exact ⟨_, by rw [hnb n2, if_pos rfl], hb⟩
      · by_cases hbn1 : b = n1
        · subst b
          exact ⟨_, by rw [hnb n1, if_neg h12, if_pos rfl], Finset.mem_insert_self _ _⟩
        · have hbd : b ∈ entryOrDefault g.nodes n2 := by
            rcases Finset.mem_insert.mp hb with h | h
            · exact absurd h hbn1
            · exact h
          obtain ⟨s2, hs2, hbs2⟩ := mem_entryOrDefault hbd
          obtain ⟨t, hbt, h2t⟩ := hg n2 b s2 hs2 hbs2
          exact ⟨t, by rw [hnb b, if_neg hbn2, if_neg hbn1]; exact hbt, h2t⟩
    · rw [if_neg han2] at hs
      by_cases han1 : a = n1
      · subst a
        rw [if_pos rfl] at hs
        injection hs with hs
        subst hs
        by_cases hbn2 : b = n2
        · subst b
          exact ⟨_, by rw [hnb n2, if_pos rfl], Finset.mem_insert_self _ _⟩
        · have hbd : b ∈ entryOrDefault g.nodes n1 := by
            rcases Finset.mem_insert.mp hb with h | h
            · exact absurd h hbn2
            · exact h
          obtain ⟨s1, hs1, hbs1⟩ := mem_entryOrDefault hbd
          obtain ⟨t, hbt, h1t⟩ := hg n1 b s1 hs1 hbs1
          by_cases hbn1 : b = n1
          · subst b
            refine ⟨_, by rw [hnb n1, if_neg h12, if_pos rfl], ?_⟩
            exact Finset.mem_insert_of_mem (by rw [entryOrDefault_of_some hbt]; exact h1t)
          · exact ⟨t, by rw [hnb b, if_neg hbn2, if_neg hbn1]; exact hbt, h1t⟩
      · rw [if_neg han1] at hs
        obtain ⟨t, hbt, hat⟩ := hg a b s hs hb
        by_cases hbn2 : b = n2
        · subst b
          refine ⟨_, by rw [hnb n2, if_pos rfl], ?_⟩
          exact Finset.mem_insert_of_mem (by rw [entryOrDefault_of_some hbt]; exact hat)
        · by_cases hbn1 : b = n1
          · subst b
            refine ⟨_, by rw [hnb n1, if_neg h12, if_pos rfl], ?_⟩
            exact Finset.mem_insert_of_mem (by rw [entryOrDefault_of_some hbt]; exact hat)
          · exact ⟨t, by rw [hnb b, if_neg hbn2, if_neg hbn1]; exact hbt, hat⟩

lemma symm_add_node (g : UndirectedGraph) (n : ElementId) (E : Finset ElementId)
    (hg : Symm g) : Symm (g.add_node n E).1 := by
  cases hgn : g.nodes n with
  | some s => rw [UndirectedGraph.add_node_of_present E hgn]; exact hg
  | none =>
    intro a b s hs hb
    have hnb := fun k => @UndirectedGraph.add_node_nodes_eq g n E hgn k
    rw [hnb a] at hs
    by_cases han : a = n
    · subst a
      rw [if_pos rfl] at hs
      injection hs with hs
      subst hs
      by_cases hbn : b = n
      · subst b
        exact ⟨E, by rw [hnb n, if_pos rfl], hb⟩
      · refine ⟨_, by rw [hnb b, if_neg hbn, if_pos hb], ?_⟩
        exact Finset.mem_insert_self _ _
    · rw [if_neg han] at hs
      by_cases haE : a ∈ E
      · rw [if_pos haE] at hs
        injection hs with hs
        subst hs
        rcases Finset.mem_insert.mp hb with hbn | hbd
        · subst b
          exact ⟨E, by rw [hnb n, if_pos rfl], haE⟩
        · obtain ⟨sa, hsa, hbsa⟩ := mem_entryOrDefault hbd
          obtain ⟨t, hbt, hat⟩ := hg a b sa hsa hbsa
          have hbn : b ≠ n := by
            rintro rfl
            rw [hgn] at hbt
            exact Option.noConfusion hbt
          by_cases hbE : b ∈ E
          · refine ⟨_, by rw [hnb b, if_neg hbn, if_pos hbE], ?_⟩
            exact Finset.mem_insert_of_mem (by rw [entryOrDefault_of_some hbt]; exact hat)
          · exact ⟨t, by rw [hnb b, if_neg hbn, if_neg hbE]; exact hbt, hat⟩
      · rw [if_neg haE] at hs
        obtain ⟨t, hbt, hat⟩ := hg a b s hs hb
        have hbn : b ≠ n := by
          rintro rfl
          rw [hgn] at hbt
          exact Option.noConfusion hbt
        by_cases hbE : b ∈ E
        · refine ⟨_, by rw [hnb b, if_neg hbn, if_pos hbE], ?_⟩
          exact Finset.mem_insert_of_mem (by rw [entryOrDefault_of_some hbt]; exact hat)
        · exact ⟨t, by rw [hnb b, if_neg hbn, if_neg hbE]; exact hbt, hat⟩

lemma set_node_adj_back (g : UndirectedGraph) (n : ElementId) (E O : Finset ElementId)
    (hgn : g.nodes n = some O) {a b : ElementId} {t : Finset ElementId}
    (hbt : g.nodes b = some t) (hat : a ∈ t) (han : a ≠ n) (hbn : b ≠ n) :
    ∃ u, (g.set_node n E).nodes b = some u ∧ a ∈ u := by
  have hnb := @UndirectedGraph.set_node_nodes_eq_of_present g n E O hgn b
  by_cases hbEO : b ∈ E ∧ b ∉ O
  · refine ⟨_, by rw [hnb, if_neg hbn, if_pos hbEO], ?_⟩
    exact Finset.mem_insert_of_mem (by rw [entryOrDefault_of_some hbt]; exact hat)
  · by_cases hbOE : b ∈ O ∧ b ∉ E
    · refine ⟨_, by rw [hnb, if_neg hbn, if_neg hbEO, if_pos hbOE], ?_⟩
      exact Finset.mem_erase.mpr ⟨han, by rw [entryOrDefault_of_some hbt]; exact hat⟩
    · exact ⟨t, by rw [hnb, if_neg hbn, if_neg hbEO, if_neg hbOE]; exact hbt, hat⟩

lemma symm_set_node (g : UndirectedGraph) (n : ElementId) (E : Finset ElementId)
    (hg : Symm g) : Symm (g.set_node n E) := by
  cases hgn : g.nodes n with
  | none =>
    rw [UndirectedGraph.set_node_eq_add_node_of_absent E hgn]
    exact symm_add_node g n E hg
  | some O =>
    intro a b s hs hb
    have hnb := fun k => @UndirectedGraph.set_node_nodes_eq_of_present g n E O hgn k
    rw [hnb a] at hs
    by_cases han : a = n
    · subst a
      rw [if_pos rfl] at hs
      injection hs with hs
      subst hs
      by_cases hbn : b = n
      · subst b
        exact ⟨E, by rw [hnb n, if_pos rfl], hb⟩
      · by_cases hbO : b ∈ O
        · obtain ⟨t, hbt, hnt⟩ := hg n b O hgn hbO
          refine ⟨t, ?_, hnt⟩
          rw [hnb b, if_neg hbn, if_neg (by simp [hbO]), if_neg (by simp [hb])]
          exact hbt
        · refine ⟨_, by rw [hnb b, if_neg hbn, if_pos ⟨hb, hbO⟩], ?_⟩
          exact Finset.mem_insert_self _ _
    · rw [if_neg han] at hs
      by_cases hEO : a ∈ E ∧ a ∉ O
      · rw [if_pos hEO] at hs
        injection hs with hs
        subst hs
        rcases Finset.mem_insert.mp hb with hbn | hbd
        · subst b
          exact ⟨E, by rw [hnb n, if_pos rfl], hEO.1⟩
        · obtain ⟨sa, hsa, hbsa⟩ := mem_entryOrDefault hbd
          obtain ⟨t, hbt, hat⟩ := hg a b sa hsa hbsa
          have hbn : b ≠ n := by
            rintro rfl
            rw [hgn] at hbt
            injection hbt with h
            subst h
            exact hEO.2 hat
          exact set_node_adj_back g n E O hgn hbt hat han hbn
      · rw [if_neg hEO] at hs
        by_cases hOE : a ∈ O ∧ a ∉ E
        · rw [if_pos hOE] at hs
          injection hs with hs
          subst hs
          have hbn : b ≠ n := (Finset.mem_erase.mp hb).1
          obtain ⟨sa, hsa, hbsa⟩ := mem_entryOrDefault (Finset.mem_erase.mp hb).2
          obtain ⟨t, hbt, hat⟩ := hg a b sa hsa hbsa
          exact set_node_adj_back g n E O hgn hbt hat han hbn
        · rw [if_neg hOE] at hs
          obtain ⟨t, hbt, hat⟩ := hg a b s hs hb
          by_cases hbn : b = n
          · subst b
            rw [hgn] at hbt
            injection hbt with h
            subst h
            have haE : a ∈ E := by
              by_contra haE
              exact hOE ⟨hat, haE⟩
            exact ⟨E, by rw [hnb n, if_pos rfl], haE⟩
          · exact set_node_adj_back g n E O hgn hbt hat han hbn

lemma symm_remove_node (g : UndirectedGraph) (n : ElementId) (hg : Symm g) :
    Symm (g.remove_node n).1 := by
  cases hgn : g.nodes n with
  | none => rw [UndirectedGraph.remove_node_of_absent hgn]; exact hg
  | some S =>
    intro a b s hs hb
    have hnb := fun k => UndirectedGraph.remove_node_nodes_eq hgn k
    rw [hnb a] at hs
    have han : a ≠ n := by
      intro h
      rw [if_pos h] at hs
      exact Option.noConfusion hs
    rw [if_neg han] at hs
    by_cases haS : a ∈ S
    · rw [if_pos haS] at hs
      obtain ⟨sa, hsa, hmap⟩ : ∃ sa, g.nodes a = some sa ∧ sa.erase n = s := by
        cases hna : g.nodes a with
        | none => rw [hna] at hs; exact Option.noConfusion hs
        | some sa =>
          rw [hna] at hs
          exact ⟨sa, rfl, by injection hs⟩
      subst hmap
      have hbn : b ≠ n := (Finset.mem_erase.mp hb).1
      have hbsa : b ∈ sa := (Finset.mem_erase.mp hb).2
      obtain ⟨t, hbt, hat⟩ := hg a b sa hsa hbsa
      by_cases hbS : b ∈ S
      · refine ⟨t.erase n, ?_, Finset.mem_erase.mpr ⟨han, hat⟩⟩
        rw [hnb b, if_neg hbn, if_pos hbS, hbt]
        rfl
      · exact ⟨t, by rw [hnb b, if_neg hbn, if_neg hbS]; exact hbt, hat⟩
    · rw [if_neg haS] at hs
      obtain ⟨t, hbt, hat⟩ := hg a b s hs hb
      have hbn : b ≠ n := by
        rintro rfl
        rw [hgn] at hbt
        injection hbt with h
        subst h
        exact haS hat
      by_cases hbS : b ∈ S
      · refine ⟨t.erase n, ?_, Finset.mem_erase.mpr ⟨han, hat⟩⟩
        rw [hnb b, if_neg hbn, if_pos hbS, hbt]
        rfl
      · exact ⟨t, by rw [hnb b, if_neg hbn, if_neg hbS]; exact hbt, hat⟩

/-- Graphs reachable from the empty graph through any sequence of the five
mutating operations. -/
inductive Reachable : UndirectedGraph → Prop where
  | init (m : ℕ) : Reachable (UndirectedGraph.from_m m)
  | empty_node (g : UndirectedGraph) (n : ElementId) :
      Reachable g → Reachable (g.add_empty_node n).1
  | node (g : UndirectedGraph) (n : ElementId) (E : Finset ElementId) :
      Reachable g → Reachable (g.add_node n E).1
  | set (g : UndirectedGraph) (n : ElementId) (E : Finset ElementId) :
      Reachable g → Reachable (g.set_node n E)
  | remove (g : UndirectedGraph) (n : ElementId) :
      Reachable g → Reachable (g.remove_node n).1
  | edge (g : UndirectedGraph) (n1 n2 : ElementId) :
      Reachable g → Reachable (g.add_edge n1 n2)

/-- C1 : Symmetry invariant: every graph reachable from the empty graph through
any sequence of `add_empty_node`, `add_node`, `set_node`, `remove_node` and
`add_edge` calls is symmetric: for every node `a` present in the map with `b`
in `a`'s edge set, `b` is present in the map and `a` is in `b`'s edge set. -/
theorem symm_invariant_of_reachable (g : UndirectedGraph) (h : Reachable g) : Symm g := by
  induction h with
  | init m => exact symm_from_m m
  | empty_node g n _ ih => exact symm_add_empty_node g n ih
  | node g n E _ ih => exact symm_add_node g n E ih
  | set g n E _ ih => exact symm_set_node g n E ih
  | remove g n _ ih => exact symm_remove_node g n ih
  | edge g n1 n2 _ ih => exact symm_add_edge g n1 n2 ih

/-- Witness for C1 at a concrete reachable graph. -/
theorem symm_invariant_of_reachable_witness :
    Symm (((UndirectedGraph.from_m 10).add_empty_node 0).1.add_edge 1 2) :=
  symm_invariant_of_reachable _
    (Reachable.edge _ 1 2 (Reachable.empty_node _ 0 (Reachable.init 10)))

/-- C2 : Atomic rejection of duplicate insert: when `n` is already a key,
`add_node n E` returns the absent sentinel and the whole graph state is
unchanged. -/
theorem add_node_rejects_duplicate (g : UndirectedGraph) (n : ElementId)
    (E s : Finset ElementId) (h : g.nodes n = some s) :
    g.add_node n E = (g, none) :=
  UndirectedGraph.add_node_of_present E h

/-- Witness for C2 at a concrete graph already containing the node. -/
theorem add_node_rejects_duplicate_witness :
    ((UndirectedGraph.from_m 5).add_empty_node 1).1.add_node 1 {2} =
      (((UndirectedGraph.from_m 5).add_empty_node 1).1, none) :=
  add_node_rejects_duplicate _ 1 {2} ∅ (by decide)

/-- C3 : Total replace-or-insert: `set_node n E` always succeeds (the model
returns a graph, with no failure result), leaves `n` present with stored set
exactly `E`, and when `n` was absent the result equals the graph produced by
`add_node n E` on the same prior state. -/
theorem set_node_total_replace_or_insert (g : UndirectedGraph) (n : ElementId)
    (E : Finset ElementId) :
    (g.set_node n E).nodes n = some E ∧
      (g.nodes n = none → g.set_node n E = (g.add_node n E).1) :=
  ⟨UndirectedGraph.set_node_nodes_self g n E,
    fun h => UndirectedGraph.set_node_eq_add_node_of_absent E h⟩

/-- Witness for C3 at a concrete absent node. -/
theorem set_node_total_replace_or_insert_witness :
    ((UndirectedGraph.from_m 5).set_node 3 {1}).nodes 3 = some {1} ∧
      (UndirectedGraph.from_m 5).set_node 3 {1} =
        ((UndirectedGraph.from_m 5).add_node 3 {1}).1 :=
  ⟨(set_node_total_replace_or_insert (UndirectedGraph.from_m 5) 3 {1}).1,
    (set_node_total_replace_or_insert (UndirectedGraph.from_m 5) 3 {1}).2 (by decide)⟩

/-- C4 : Contract of `remove_node` on a symmetric graph: absent `n` is a no-op
returning the absent sentinel; present `n` with set `S` is deleted, `n` is
erased from each still-present former neighbor's set without deleting that
entry, `S` is returned, a second removal returns the absent sentinel, and `n`
is in no remaining node's edge set. -/
theorem remove_node_contract (g : UndirectedGraph) (n : ElementId) (hg : Symm g) :
    (g.nodes n = none → g.remove_node n = (g, none)) ∧
      (∀ S, g.nodes n = some S →
        (g.remove_node n).2 = some S ∧
          (g.remove_node n).1.nodes n = none ∧
          (∀ b t, b ∈ S → b ≠ n → g.nodes b = some t →
            (g.remove_node n).1.nodes b = some (t.erase n)) ∧
          (g.remove_node n).1.remove_node n = ((g.remove_node n).1, none) ∧
          (∀ b t, (g.remove_node n).1.nodes b = some t → n ∉ t)) := by
  refine ⟨fun h => UndirectedGraph.remove_node_of_absent h, fun S hS => ?_⟩
  have hn : (g.remove_node n).1.nodes n = none := by
    rw [UndirectedGraph.remove_node_nodes_eq hS n, if_pos rfl]
  refine ⟨UndirectedGraph.remove_node_ret_of_present hS, hn, ?_, ?_, ?_⟩
  · intro b t hbS hbn hbt
    rw [UndirectedGraph.remove_node_nodes_eq hS b, if_neg hbn, if_pos hbS, hbt]
    rfl
  · exact UndirectedGraph.remove_node_of_absent hn
  · intro b t hbt'
    have hnb := UndirectedGraph.remove_node_nodes_eq hS b
    by_cases hbn : b = n
    · rw [hbn] at hbt'
      rw [hn] at hbt'
      exact Option.noConfusion hbt'
    · rw [if_neg hbn] at hnb
      by_cases hbS : b ∈ S
      · rw [if_pos hbS] at hnb
        rw [hnb] at hbt'
        obtain ⟨sb, hsb, ht⟩ : ∃ sb, g.nodes b = some sb ∧ sb.erase n = t := by
          cases hgb : g.nodes b with
          | none => rw [hgb] at hbt'; exact Option.noConfusion hbt'
          | some sb => rw [hgb] at hbt'; exact ⟨sb, rfl, by injection hbt'⟩
        intro hnt
        rw [← ht] at hnt
        exact (Finset.mem_erase.mp hnt).1 rfl
      · rw [if_neg hbS] at hnb
        rw [hnb] at hbt'
        intro hnt
        obtain ⟨u, hnu, hbu⟩ := hg b n t hbt' hnt
        rw [hS] at hnu
        injection hnu with h
        subst h
        exact hbS hbu

/-- Witness for C4 at a concrete symmetric two-node graph. -/
theorem remove_node_contract_witness :
    ((((UndirectedGraph.from_m 9).add_edge 1 2).remove_node 1).2 =
        some ({2} : Finset ElementId)) ∧
      ((((UndirectedGraph.from_m 9).add_edge 1 2).remove_node 1).1.nodes 2 =
        some (({1} : Finset ElementId).erase 1)) :=
  ⟨((remove_node_contract ((UndirectedGraph.from_m 9).add_edge 1 2) 1
        (symm_add_edge _ 1 2 (symm_from_m 9))).2 {2} (by decide)).1,
    ((remove_node_contract ((UndirectedGraph.from_m 9).add_edge 1 2) 1
        (symm_add_edge _ 1 2 (symm_from_m 9))).2 {2} (by decide)).2.2.1 2 {1}
      (by decide) (by decide) (by decide)⟩

/-- C5 counterexample: `set_node`'s removal reconciliation uses
`entry(b).or_default()`, so when a removed neighbor `b` has no entry, an empty
entry IS created for `b` (the key set gains `b`), contradicting the claim that
no entry is created.  The input is a (non-symmetric) state with `5 ↦ {7}` and
`7` absent. -/
theorem set_node_creates_removed_neighbor_entry :
    (UndirectedGraph.mk 0 (fun k => if k = 5 then some {7} else none)).nodes 5 =
        some {7} ∧
      (UndirectedGraph.mk 0 (fun k => if k = 5 then some {7} else none)).nodes 7 =
        none ∧
      ((UndirectedGraph.mk 0 (fun k => if k = 5 then some {7} else none)).set_node
          5 ∅).nodes 7 = some ∅ := by
  refine ⟨by decide, by decide, ?_⟩
  rw [@UndirectedGraph.set_node_nodes_eq_of_present
      (UndirectedGraph.mk 0 (fun k => if k = 5 then some {7} else none)) 5 ∅ {7}
      (by decide) 7,
    if_neg (by decide), if_neg (by decide), if_pos (by decide)]
  simp [entryOrDefault]

/-- C5 as amended: for `n` present with old set `O` and a removed neighbor
`b ∈ O \ E` with `b ≠ n`, `set_node n E` stores at `b` the entry-or-default
set with `n` erased: an existing entry `t` becomes `t.erase n`, and an absent
`b` gains an empty entry; on a symmetric graph every such `b` already has an
entry, so no key is gained there. -/
theorem set_node_removed_neighbor_reconciliation (g : UndirectedGraph)
    (n b : ElementId) (E O : Finset ElementId)
    (h : g.nodes n = some O) (hbO : b ∈ O) (hbE : b ∉ E) (hbn : b ≠ n) :
    (g.set_node n E).nodes b = some ((entryOrDefault g.nodes b).erase n) ∧
      (g.nodes b = none → (g.set_node n E).nodes b = some ∅) ∧
      (Symm g → ∃ t, g.nodes b = some t ∧
        (g.set_node n E).nodes b = some (t.erase n)) := by
  have hmain : (g.set_node n E).nodes b =
      some ((entryOrDefault g.nodes b).erase n) := by
    rw [@UndirectedGraph.set_node_nodes_eq_of_present g n E O h b, if_neg hbn,
      if_neg (fun hc => hbE hc.1), if_pos ⟨hbO, hbE⟩]
  refine ⟨hmain, ?_, ?_⟩
  · intro hb
    rw [hmain, entryOrDefault, hb]
    rfl
  · intro hg
    obtain ⟨t, hbt, hnt⟩ := hg n b O h hbO
    exact ⟨t, hbt, by rw [hmain, entryOrDefault_of_some hbt]⟩

/-- Witness for the amended C5 at a concrete graph. -/
theorem set_node_removed_neighbor_reconciliation_witness :
    ((((UndirectedGraph.from_m 2).add_edge 1 2).set_node 1 ∅).nodes 2 =
      some ((entryOrDefault ((UndirectedGraph.from_m 2).add_edge 1 2).nodes 2).erase 1)) :=
  (set_node_removed_neighbor_reconciliation _ 1 2 ∅ {2}
      (by decide) (by decide) (by decide) (by decide)).1

/-- C6 : Delta-minimal replace: calling `set_node n E` a second time with the
same set changes nothing at all — the graph after the second call equals the
graph after the first, so no other node's edge set is mutated. -/
theorem set_node_idempotent_delta (g : UndirectedGraph) (n : ElementId)
    (E : Finset ElementId) :
    (g.set_node n E).set_node n E = g.set_node n E := by
  have h : (g.set_node n E).nodes n = some E := UndirectedGraph.set_node_nodes_self g n E
  apply UndirectedGraph.ext
  · rw [UndirectedGraph.set_node_m_max]
  · funext k
    rw [@UndirectedGraph.set_node_nodes_eq_of_present (g.set_node n E) n E E h k]
    by_cases hkn : k = n
    · rw [if_pos hkn, hkn]
      exact h.symm
    · rw [if_neg hkn, if_neg (fun hc => hc.2 hc.1), if_neg (fun hc => hc.2 hc.1)]

/-- C7 : No self-reference filtering in `set_node`: when `n ∈ E`, after
`set_node n E` the stored neighbor set of `n` is exactly `E`, which contains
`n` itself. -/
theorem set_node_materializes_self_reference (g : UndirectedGraph) (n : ElementId)
    (E : Finset ElementId) (h : n ∈ E) :
    (g.set_node n E).nodes n = some E ∧
      ∃ s, (g.set_node n E).nodes n = some s ∧ n ∈ s :=
  ⟨UndirectedGraph.set_node_nodes_self g n E,
    ⟨E, UndirectedGraph.set_node_nodes_self g n E, h⟩⟩

/-- Witness for C7 at a concrete self-loop. -/
theorem set_node_materializes_self_reference_witness :
    ((UndirectedGraph.from_m 4).set_node 2 {2}).nodes 2 = some {2} ∧
      ∃ s, ((UndirectedGraph.from_m 4).set_node 2 {2}).nodes 2 = some s ∧ 2 ∈ s :=
  set_node_materializes_self_reference (UndirectedGraph.from_m 4) 2 {2} (by decide)

/-- C8 : Success postcondition of `add_node` on an absent node: `n` is
installed with set `E`, every neighbor `e ∈ E` gains a reverse edge to `n`
(an absent neighbor's entry is created, holding exactly the reverse edge),
and the returned list holds exactly the elements of `E`. -/
theorem add_node_success_postcondition (g : UndirectedGraph) (n : ElementId)
    (E : Finset ElementId) (h : g.nodes n = none) :
    (g.add_node n E).1.nodes n = some E ∧
      (∀ e, e ∈ E → e ≠ n →
        (g.add_node n E).1.nodes e = some (insert n (entryOrDefault g.nodes e))) ∧
      (∀ e, e ∈ E → e ≠ n → g.nodes e = none →
        (g.add_node n E).1.nodes e = some (insert n ∅)) ∧
      (∃ l, (g.add_node n E).2 = some l ∧ ∀ x, x ∈ l ↔ x ∈ E) := by
  refine ⟨?_, ?_, ?_,
    ⟨E.sort (· ≤ ·), UndirectedGraph.add_node_ret_of_absent E h,
      fun x => by simp [Finset.mem_sort]⟩⟩
  · rw [@UndirectedGraph.add_node_nodes_eq g n E h n, if_pos rfl]
  · intro e heE hen
    rw [@UndirectedGraph.add_node_nodes_eq g n E h e, if_neg hen, if_pos heE]
  · intro e heE hen hge
    rw [@UndirectedGraph.add_node_nodes_eq g n E h e, if_neg hen, if_pos heE,
      entryOrDefault, hge]
    rfl

/-- Witness for C8 at a concrete insertion. -/
theorem add_node_success_postcondition_witness :
    (((UndirectedGraph.from_m 6).add_node 0 {1}).1.nodes 0 = some {1}) ∧
      (((UndirectedGraph.from_m 6).add_node 0 {1}).1.nodes 1 =
        some (insert 0 (entryOrDefault (UndirectedGraph.from_m 6).nodes 1))) ∧
      (((UndirectedGraph.from_m 6).add_node 0 {1}).1.nodes 1 = some (insert 0 ∅)) :=
  ⟨(add_node_success_postcondition _ 0 {1} (by decide)).1,
    (add_node_success_postcondition _ 0 {1} (by decide)).2.1 1 (by decide) (by decide),
    (add_node_success_postcondition _ 0 {1} (by decide)).2.2.1 1 (by decide) (by decide)
      (by decide)⟩

/-- C9 : Idempotent empty registration: `add_empty_node n` returns `true` and
registers `n` with an empty set exactly when `n` was absent, is a full no-op
returning `false` when present, touches no other key, and called twice from a
graph without `n` returns `true` then `false` with the second call changing
nothing. -/
theorem add_empty_node_idempotent_registration (g : UndirectedGraph) (n : ElementId) :
    ((g.add_empty_node n).2 = true ↔ g.nodes n = none) ∧
      (g.nodes n = none → (g.add_empty_node n).1.nodes n = some ∅) ∧
      (∀ s, g.nodes n = some s → g.add_empty_node n = (g, false)) ∧
      (∀ k, k ≠ n → (g.add_empty_node n).1.nodes k = g.nodes k) ∧
      (g.nodes n = none →
        ((g.add_empty_node n).1.add_empty_node n).2 = false ∧
          ((g.add_empty_node n).1.add_empty_node n).1 = (g.add_empty_node n).1) := by
  constructor
  · cases hgn : g.nodes n with
    | none => rw [UndirectedGraph.add_empty_node_of_absent hgn]; simp
    | some s => rw [UndirectedGraph.add_empty_node_of_present hgn]; simp [hgn]
  refine ⟨?_, ?_, ?_, ?_⟩
  · intro h
    rw [UndirectedGraph.add_empty_node_nodes_eq h n, if_pos rfl]
  · intro s h
    exact UndirectedGraph.add_empty_node_of_present h
  · intro k hk
    cases hgn : g.nodes n with
    | none => rw [UndirectedGraph.add_empty_node_nodes_eq hgn k, if_neg hk]
    | some s => rw [UndirectedGraph.add_empty_node_of_present hgn]
  · intro h
    have h1 : (g.add_empty_node n).1.nodes n = some ∅ := by
      rw [UndirectedGraph.add_empty_node_nodes_eq h n, if_pos rfl]
    rw [UndirectedGraph.add_empty_node_of_present h1]
    exact ⟨rfl, rfl⟩

/-- Witness for C9 at a concrete double registration. -/
theorem add_empty_node_idempotent_registration_witness :
    ((UndirectedGraph.from_m 10).add_empty_node 0).2 = true ∧
      (((UndirectedGraph.from_m 10).add_empty_node 0).1.add_empty_node 0).2 = false ∧
      (((UndirectedGraph.from_m 10).add_empty_node 0).1.add_empty_node 0).1 =
        ((UndirectedGraph.from_m 10).add_empty_node 0).1 :=
  ⟨(add_empty_node_idempotent_registration (UndirectedGraph.from_m 10) 0).1.mpr
      (by decide),
    ((add_empty_node_idempotent_registration (UndirectedGraph.from_m 10) 0).2.2.2.2
        (by decide)).1,
    ((add_empty_node_idempotent_registration (UndirectedGraph.from_m 10) 0).2.2.2.2
        (by decide)).2⟩

/-- C10 : `add_edge` self-loop rejection and symmetric insertion: an edge from
a node to itself leaves the graph completely unchanged, while for distinct
endpoints each endpoint's set gains the other (creating entries as needed) and
no other key changes. -/
theorem add_edge_spec (g : UndirectedGraph) (a b : ElementId) :
    (g.add_edge a a = g) ∧
      (a ≠ b →
        (g.add_edge a b).nodes a = some (insert b (entryOrDefault g.nodes a)) ∧
          (g.add_edge a b).nodes b = some (insert a (entryOrDefault g.nodes b)) ∧
          (∀ k, k ≠ a → k ≠ b → (g.add_edge a b).nodes k = g.nodes k)) := by
  refine ⟨UndirectedGraph.add_edge_self g a, fun h => ⟨?_, ?_, ?_⟩⟩
  · rw [UndirectedGraph.add_edge_nodes_eq g h a, if_neg h, if_pos rfl]
  · rw [UndirectedGraph.add_edge_nodes_eq g h b, if_pos rfl]
  · intro k hka hkb
    rw [UndirectedGraph.add_edge_nodes_eq g h k, if_neg hkb, if_neg hka]

/-- Witness for C10 at concrete edges. -/
theorem add_edge_spec_witness :
    ((UndirectedGraph.from_m 8).add_edge 3 3 = UndirectedGraph.from_m 8) ∧
      ((UndirectedGraph.from_m 8).add_edge 1 2).nodes 1 =
        some (insert 2 (entryOrDefault (UndirectedGraph.from_m 8).nodes 1)) ∧
      ((UndirectedGraph.from_m 8).add_edge 1 2).nodes 2 =
        some (insert 1 (entryOrDefault (UndirectedGraph.from_m 8).nodes 2)) :=
  ⟨(add_edge_spec (UndirectedGraph.from_m 8) 3 3).1,
    ((add_edge_spec (UndirectedGraph.from_m 8) 1 2).2 (by decide)).1,
    ((add_edge_spec (UndirectedGraph.from_m 8) 1 2).2 (by decide)).2.1⟩

end HnswGraph
